import Mathlib

/-!
Verification of the seg2io SEG-2 reader (src/seg2io/seg2io.py).

The Python source is shallowly embedded: bytes are natural numbers, a file
is a list of bytes together with a cursor position, and every fallible step
returns an `Except` value naming the concrete crash point of the source
(struct.error, NameError from an unbound local, AssertionError, numpy
ValueError).  Dictionaries are insertion-ordered association lists, matching
Python dict semantics (later assignment to an existing key overwrites in
place, otherwise the pair is appended).
-/

set_option autoImplicit false

/-- A byte is modelled as a natural number (the source never range-checks). -/
abbrev Bytes := List Nat

/-- Insertion-ordered string map, as produced by a Python dict of byte
strings.  Keys and values are kept as raw bytes: the source's utf-8 decode
is injective on the byte strings and never consulted afterwards, so it is
modelled as the identity (its own possible UnicodeDecodeError on non-UTF-8
bytes is outside every claim). -/
abbrev Dict := List (Bytes × Bytes)

/-- Byte order detected from the first file byte (`endian` in the source). -/
inductive ByteOrder where
  | little
  | big
deriving DecidableEq, Repr

/-- The crash points of the source, named after the spec's error taxonomy.
Each constructor corresponds to one concrete Python exception site. -/
inductive Seg2Error where
  /-- struct.error: fewer bytes than the requested fixed-width field. -/
  | TruncatedStream
  /-- NameError on the unbound local `endian` after an invalid magic byte
  (the source only prints a warning and leaves `endian` unassigned). -/
  | UnrecognizedFormat
  /-- struct.error inside the trace-pointer loop: a 4-byte word of the
  pointer sub-block ran past its end. -/
  | TruncatedPointerTable
  /-- AssertionError from `assert ID == 0x4422`. -/
  | InvalidTraceMagic
  /-- NameError on the unbound local `dtype`: the format code was not in
  DATA_FORMAT_CODES and no earlier trace had set `dtype`. -/
  | UnsupportedDataFormat
  /-- ValueError from np.fromstring: payload size not a multiple of the
  sample width. -/
  | SampleSizeMismatch
  /-- ValueError from np.stack on an empty list of traces. -/
  | StackEmpty
  /-- ValueError from np.stack on traces of unequal length. -/
  | StackShapeMismatch
deriving DecidableEq, Repr

/-- Lift an optional value into `Except`, choosing the error of the call
site (helper for the embedding). -/
def req {α : Type} (o : Option α) (e : Seg2Error) : Except Seg2Error α :=
  match o with
  | some a => Except.ok a
  | none => Except.error e

/-- Decode two bytes as an unsigned 16-bit integer in the given byte order
(struct format character H). -/
def u16 : ByteOrder → Nat → Nat → Nat
  | ByteOrder.little, b0, b1 => b0 + 256 * b1
  | ByteOrder.big, b0, b1 => 256 * b0 + b1

/-- Decode four bytes as an unsigned 32-bit integer in the given byte order
(struct format character L or I). -/
def u32 : ByteOrder → Nat → Nat → Nat → Nat → Nat
  | ByteOrder.little, b0, b1, b2, b3 =>
      b0 + 256 * b1 + 65536 * b2 + 16777216 * b3
  | ByteOrder.big, b0, b1, b2, b3 =>
      16777216 * b0 + 65536 * b1 + 256 * b2 + b3

/-- unpack(b'B', w): exactly one byte, else struct.error (modelled none). -/
def unpackU8o : Bytes → Option Nat
  | [b] => some b
  | _ => none

/-- unpack(endian + b'H', w): exactly two bytes, else struct.error. -/
def unpackU16o (e : ByteOrder) : Bytes → Option Nat
  | [b0, b1] => some (u16 e b0 b1)
  | _ => none

/-- unpack(endian + b'L', w): exactly four bytes, else struct.error. -/
def unpackU32o (e : ByteOrder) : Bytes → Option Nat
  | [b0, b1, b2, b3] => some (u32 e b0 b1 b2 b3)
  | _ => none

/-- unpack(endian + b'HII', w): exactly ten bytes, else struct.error. -/
def unpackHIIo (e : ByteOrder) : Bytes → Option (Nat × Nat × Nat)
  | [a0, a1, b0, b1, b2, b3, c0, c1, c2, c3] =>
      some (u16 e a0 a1, u32 e b0 b1 b2 b3, u32 e c0 c1 c2 c3)
  | _ => none

/-- unpack(b'BccBcc', w): exactly six bytes, else struct.error. -/
def unpackBccBcco : Bytes → Option (Nat × Nat × Nat × Nat × Nat × Nat)
  | [a, b, c, d, e, f] => some (a, b, c, d, e, f)
  | _ => none

/-- An open binary file: the full byte content plus the cursor position. -/
structure FState where
  data : Bytes
  pos : Nat
deriving DecidableEq, Repr

/-- f.read(n): return up to n bytes from the cursor, advancing it by the
number of bytes actually obtained (Python semantics at end of file). -/
def fread (n : Nat) (s : FState) : Bytes × FState :=
  let bs := (s.data.drop s.pos).take n
  (bs, ⟨s.data, s.pos + bs.length⟩)

/-- f.seek(p, 0): absolute positioning. -/
def fseekAbs (p : Nat) (s : FState) : FState := ⟨s.data, p⟩

/-- f.seek(1, 1): advance the cursor one byte past the current position. -/
def fseekRel1 (s : FState) : FState := ⟨s.data, s.pos + 1⟩

/-- The whitespace bytes of Python bytes.split() with no argument. -/
def isSpace (b : Nat) : Bool :=
  b == 9 || b == 10 || b == 11 || b == 12 || b == 13 || b == 32

/-- Accumulator worker for `splitWs` (current partial token held reversed). -/
def splitWsAux (cur : Bytes) : Bytes → List Bytes
  | [] => if cur = [] then [] else [cur.reverse]
  | b :: bs =>
      if isSpace b then
        if cur = [] then splitWsAux [] bs else cur.reverse :: splitWsAux [] bs
      else splitWsAux (b :: cur) bs

/-- Python bytes.split(): split on runs of ASCII whitespace, dropping empty
tokens at either end. -/
def splitWs (bs : Bytes) : List Bytes := splitWsAux [] bs

/-- Python dict assignment d[k] = v: overwrite in place if the key exists,
otherwise append, preserving first-seen insertion order. -/
def dictInsert (d : Dict) (k v : Bytes) : Dict :=
  if d.any (fun p => p.1 == k) then
    d.map (fun p => if p.1 == k then (k, v) else p)
  else d ++ [(k, v)]

/-- Fuel-indexed body of the free-format while-loop.  A successful
iteration consumes at least two bytes of the file, so the wrapper
`read_free_form` always supplies enough fuel and the fuel-exhaustion branch
is unreachable (see `read_free_form_fuel_irrel`); the fuel only serves to
make the loop a structural recursion. -/
def read_free_form_fuel (e : ByteOrder) :
    Nat → FState → Dict → Nat → Except Seg2Error (Dict × Nat × FState)
  | 0, _, _, _ => Except.error Seg2Error.TruncatedStream
  | fuel + 1, s, d, c =>
    let r := fread 2 s
    match unpackU16o e r.1 with
    | none => Except.error Seg2Error.TruncatedStream
    | some offset =>
      if offset = 0 then Except.ok (d, c, r.2)
      else
        let r2 := fread (offset - 2) r.2
        match splitWs r2.1 with
        | [k, v] =>
            read_free_form_fuel e fuel r2.2 (dictInsert d k v.dropLast) (c + 1)
        | _ => read_free_form_fuel e fuel r2.2 d c

/-- The free-format while-loop shared verbatim by read_seg2_header (file
header) and read_seg (each trace header): read a 2-byte length, stop at 0,
otherwise read length-2 bytes, split into exactly two whitespace-separated
tokens (else skip the chunk), store key to value with the final byte of the
value token removed.  (For a declared chunk length of exactly 1 the source
computes f.read(1-2) = f.read(-1), which in Python reads to end of file;
the model's natural-number subtraction reads 0 bytes instead — no claim
involves a length-1 chunk.)  The counter counts successful stores; read_seg appends
the (aliased, eventually identical) dict to its header list once per
successful store, so the count is the observable number of such appends. -/
def read_free_form (e : ByteOrder) (s : FState) (d : Dict) (c : Nat) :
    Except Seg2Error (Dict × Nat × FState) :=
  read_free_form_fuel e (s.data.length - s.pos + 1) s d c

/-- The fixed DATA_FORMAT_CODES table of the source (code 3, a 20-bit
float, is deliberately absent). -/
inductive Fmt where
  | i16
  | i32
  | f32
  | f64
deriving DecidableEq, Repr

/-- DATA_FORMAT_CODES lookup: {1: np.int16, 2: np.int32, 4: np.float32,
5: np.float64}; any other key raises KeyError (modelled none). -/
def DATA_FORMAT_CODES : Nat → Option Fmt
  | 1 => some Fmt.i16
  | 2 => some Fmt.i32
  | 4 => some Fmt.f32
  | 5 => some Fmt.f64
  | _ => none

/-- dtype().nbytes of the mapped numpy type. -/
def fmtBytes : Fmt → Nat
  | Fmt.i16 => 2
  | Fmt.i32 => 4
  | Fmt.f32 => 4
  | Fmt.f64 => 8

/-- The parsed fields of the 32-byte file descriptor block. -/
structure FileDescriptor where
  endian : ByteOrder
  rev : Nat
  M : Nat
  N : Nat
  string_terminator : Bytes
  line_terminator : Bytes
deriving DecidableEq, Repr

/-- The file-descriptor parsing common to read_seg2_header and read_seg:
first byte selects the byte order (0x55 little, 0x3a big; anything else only
prints a warning in the source, leaving `endian` unbound so that the very
next unpack raises NameError, modelled as UnrecognizedFormat); then
revision, M, N and the terminator descriptors are unpacked from the fixed
offsets of the block. -/
def parse_file_descriptor (block : Bytes) : Except Seg2Error FileDescriptor := do
  let first_byte ← req (unpackU8o (block.take 1)) Seg2Error.TruncatedStream
  let endianOpt : Option ByteOrder :=
    if first_byte = 0x55 then some ByteOrder.little
    else if first_byte = 0x3a then some ByteOrder.big
    else none
  let endian ← req endianOpt Seg2Error.UnrecognizedFormat
  let _rev ← req (unpackU16o endian ((block.drop 2).take 2)) Seg2Error.TruncatedStream
  let M ← req (unpackU16o endian ((block.drop 4).take 2)) Seg2Error.TruncatedStream
  let N ← req (unpackU16o endian ((block.drop 6).take 2)) Seg2Error.TruncatedStream
  let t ← req (unpackBccBcco ((block.drop 8).take 6)) Seg2Error.TruncatedStream
  let string_terminator := if t.1 = 2 then [t.2.1, t.2.2.1] else [t.2.1]
  let line_terminator := if t.2.2.2.1 = 2 then [t.2.2.2.2.1, t.2.2.2.2.2] else [t.2.2.2.2.1]
  Except.ok ⟨endian, _rev, M, N, string_terminator, line_terminator⟩

/-- The body of `for i in range(N)` over the trace pointer sub-block:
the i-th 4-byte word of the block is unpacked as an unsigned 32-bit offset;
a word that runs past the end of the block raises struct.error. -/
def readPointersLoop (e : ByteOrder) (block : Bytes) :
    Nat → Nat → Except Seg2Error (List Nat)
  | _, 0 => Except.ok []
  | i, n + 1 =>
    match unpackU32o e ((block.drop (4 * i)).take 4) with
    | none => Except.error Seg2Error.TruncatedPointerTable
    | some p => Except.map (fun ps => p :: ps) (readPointersLoop e block (i + 1) n)

/-- Decode the N trace pointers from the M-byte pointer sub-block. -/
def readPointers (e : ByteOrder) (block : Bytes) (n : Nat) :
    Except Seg2Error (List Nat) :=
  readPointersLoop e block 0 n

/-- Fuel-indexed worker for `chunksOf`; each step consumes at least one
byte, so the wrapper's fuel (the length of the list) never runs out and the
fuel only turns the recursion into a structural one. -/
def chunksOfFuel (w : Nat) : Nat → Bytes → List Bytes
  | 0, _ => []
  | _, [] => []
  | fuel + 1, b :: bs => (b :: bs.take (w - 1)) :: chunksOfFuel w fuel (bs.drop (w - 1))

/-- np.fromstring helper: partition a byte string into groups of w bytes
(the last group is short when w does not divide the length; `npFromstring`
rejects that case just as numpy does). -/
def chunksOf (w : Nat) (bs : Bytes) : List Bytes := chunksOfFuel w bs.length bs

theorem chunksOfFuel_nil (w : Nat) : ∀ f : Nat, chunksOfFuel w f [] = [] := by
  intro f
  cases f <;> rfl

theorem chunksOfFuel_irrel (w : Nat) :
    ∀ (f1 f2 : Nat) (bs : Bytes), bs.length ≤ f1 → bs.length ≤ f2 →
      chunksOfFuel w f1 bs = chunksOfFuel w f2 bs := by
  intro f1
  induction f1 with
  | zero =>
    intro f2 bs h1 _
    have hb : bs = [] := List.eq_nil_of_length_eq_zero (by omega)
    subst hb
    rw [chunksOfFuel_nil, chunksOfFuel_nil]
  | succ f1 ih =>
    intro f2 bs h1 h2
    cases bs with
    | nil => rw [chunksOfFuel_nil, chunksOfFuel_nil]
    | cons b t =>
      match f2, h2 with
      | f2 + 1, h2 =>
        show (b :: t.take (w - 1)) :: chunksOfFuel w f1 (t.drop (w - 1)) =
          (b :: t.take (w - 1)) :: chunksOfFuel w f2 (t.drop (w - 1))
        have ht := List.length_drop (w - 1) t
        simp only [List.length_cons] at h1 h2
        rw [ih f2 (t.drop (w - 1)) (by omega) (by omega)]

theorem chunksOf_cons (w : Nat) (b : Nat) (bs : Bytes) :
    chunksOf w (b :: bs) = (b :: bs.take (w - 1)) :: chunksOf w (bs.drop (w - 1)) := by
  show (b :: bs.take (w - 1)) :: chunksOfFuel w bs.length (bs.drop (w - 1)) =
    (b :: bs.take (w - 1)) :: chunksOfFuel w (bs.drop (w - 1)).length (bs.drop (w - 1))
  have ht := List.length_drop (w - 1) bs
  rw [chunksOfFuel_irrel w bs.length (bs.drop (w - 1)).length (bs.drop (w - 1))
    (by omega) (by omega)]

/-- np.fromstring(raw, dtype): ValueError when the buffer size is not a
multiple of the item size, otherwise the buffer reinterpreted as
floor(size/item) samples; each sample is kept as its raw byte group (the
numeric reinterpretation uses the platform's native byte order and is never
inspected by the claims). -/
def npFromstring (w : Nat) (bs : Bytes) : Option (List Bytes) :=
  if bs.length % w = 0 then some (chunksOf w bs) else none

/-- The tail of the trace loop body: skip exactly one byte after the trace
header terminator, read NS times nbytes bytes, and reinterpret them with
np.fromstring. -/
def read_trace_data (nb NS : Nat) (s : FState) :
    Except Seg2Error (List Bytes × FState) :=
  let s1 := fseekRel1 s
  let r := fread (NS * nb) s1
  match npFromstring nb r.1 with
  | none => Except.error Seg2Error.SampleSizeMismatch
  | some tr => Except.ok (tr, r.2)

/-- One iteration of `for p in trace_pointers`: seek to the pointer, read
the 32-byte trace descriptor, assert the 0x4422 block ID, unpack NS and the
format code, look the code up in DATA_FORMAT_CODES (a KeyError only prints,
leaving `dtype` at its previous value — the value from the previous loop
iteration, or unbound on the first), parse the trace header with the shared
free-format loop, then read the sample payload.  Returns the header dict,
the number of successful header stores (= appends to trace_headers), the
possibly updated dtype, the samples and the new file state. -/
def read_trace (e : ByteOrder) (dty : Option Fmt) (p : Nat) (s0 : FState) :
    Except Seg2Error (Dict × Nat × Option Fmt × List Bytes × FState) := do
  let s := fseekAbs p s0
  let r := fread 32 s
  let tdb := r.1
  let ID ← req (unpackU16o e (tdb.take 2)) Seg2Error.TruncatedStream
  if ID = 0x4422 then do
    let xyns ← req (unpackHIIo e ((tdb.drop 2).take 10)) Seg2Error.TruncatedStream
    let NS := xyns.2.2
    let format_code ← req (unpackU8o ((tdb.drop 12).take 1)) Seg2Error.TruncatedStream
    let dty2 : Option Fmt :=
      match DATA_FORMAT_CODES format_code with
      | some dt => some dt
      | none => dty
    let nbytes ← req (Option.map fmtBytes dty2) Seg2Error.UnsupportedDataFormat
    let h ← read_free_form e r.2 [] 0
    let td ← read_trace_data nbytes NS h.2.2
    Except.ok (h.1, h.2.1, dty2, td.1, td.2)
  else Except.error Seg2Error.InvalidTraceMagic

/-- The `for p in trace_pointers` loop of read_seg, threading the file
state, the persisting local `dtype`, the flat trace_headers list (one append
per successful header store, all aliasing the trace's final dict) and the
list of traces. -/
def read_traces (e : ByteOrder) :
    FState → Option Fmt → List Dict → List (List Bytes) → List Nat →
    Except Seg2Error (List Dict × List (List Bytes))
  | _, _, ths, trs, [] => Except.ok (ths, trs)
  | s, dty, ths, trs, p :: ps =>
    match read_trace e dty p s with
    | Except.error er => Except.error er
    | Except.ok (th, cnt, dty2, tr, s2) =>
        read_traces e s2 dty2 (ths ++ List.replicate cnt th) (trs ++ [tr]) ps

/-- np.stack(traces): ValueError on an empty list or on rows of unequal
length; otherwise the resulting 2-D shape (rows, row length). -/
def npStack (trs : List (List Bytes)) : Except Seg2Error (Nat × Nat) :=
  match trs with
  | [] => Except.error Seg2Error.StackEmpty
  | t :: ts =>
      if ts.all (fun u => u.length = t.length) then Except.ok (ts.length + 1, t.length)
      else Except.error Seg2Error.StackShapeMismatch

/-- read_seg: parse the 32-byte file descriptor, read the M-byte pointer
sub-block and decode N pointers from it, run the trace loop over the
pointers (read_seg never parses the file-level free-format section; it
seeks to each trace directly), and stack the traces.  The result is the
flat trace_headers list, the stacked array's shape and its rows. -/
def read_seg (data : Bytes) :
    Except Seg2Error (List Dict × (Nat × Nat) × List (List Bytes)) := do
  let s0 : FState := ⟨data, 0⟩
  let r := fread 32 s0
  let fd ← parse_file_descriptor r.1
  let r2 := fread fd.M r.2
  let trace_pointers ← readPointers fd.endian r2.1 fd.N
  let out ← read_traces fd.endian r2.2 none [] [] trace_pointers
  let shape ← npStack out.2
  Except.ok (out.1, shape, out.2)

/-- read_seg2_header: parse the file descriptor and the pointer sub-block
exactly as read_seg does, then parse the file-level free-format section
with the shared loop and return the resulting file header dict. -/
def read_seg2_header (data : Bytes) : Except Seg2Error Dict := do
  let s0 : FState := ⟨data, 0⟩
  let r := fread 32 s0
  let fd ← parse_file_descriptor r.1
  let r2 := fread fd.M r.2
  let _trace_pointers ← readPointers fd.endian r2.1 fd.N
  let fh ← read_free_form fd.endian r2.2 [] 0
  Except.ok fh.1

set_option maxRecDepth 40000

instance exceptDecEq {ε α : Type} [DecidableEq ε] [DecidableEq α] :
    DecidableEq (Except ε α) := fun x y =>
  match x, y with
  | Except.ok v, Except.ok w =>
      if h : v = w then isTrue (by rw [h])
      else isFalse (by intro hc; cases hc; exact h rfl)
  | Except.error v, Except.error w =>
      if h : v = w then isTrue (by rw [h])
      else isFalse (by intro hc; cases hc; exact h rfl)
  | Except.ok _, Except.error _ => isFalse (by intro hc; cases hc)
  | Except.error _, Except.ok _ => isFalse (by intro hc; cases hc)

/-- Encode a 16-bit value in the given byte order (inverse of `u16` on the
byte pair it produces). -/
def u16enc : ByteOrder → Nat → Bytes
  | ByteOrder.little, n => [n % 256, n / 256]
  | ByteOrder.big, n => [n / 256, n % 256]

/-- A length-prefixed free-format chunk: 2-byte length (content plus 2)
followed by the content bytes. -/
def encodeChunkRaw (e : ByteOrder) (content : Bytes) : Bytes :=
  u16enc e (content.length + 2) ++ content

/-- Concatenation of length-prefixed chunks. -/
def encodeChunks (e : ByteOrder) (cs : List Bytes) : Bytes :=
  (cs.map (encodeChunkRaw e)).flatten

/-- The effect of one free-format chunk on the header dict: insert the pair
when the content splits into exactly two tokens (value byte-stripped),
otherwise leave the dict unchanged. -/
def chunkStep (d : Dict) (content : Bytes) : Dict :=
  match splitWs content with
  | [k, v] => dictInsert d k v.dropLast
  | _ => d

/-- Number of successful stores contributed by one chunk (0 or 1). -/
def chunkCnt (content : Bytes) : Nat :=
  match splitWs content with
  | [_, _] => 1
  | _ => 0

theorem u16_enc_roundtrip (e : ByteOrder) (n : Nat) :
    unpackU16o e (u16enc e n) = some n := by
  cases e with
  | little =>
      simp [u16enc, unpackU16o, u16]
      exact Nat.mod_add_div n 256
  | big =>
      simp [u16enc, unpackU16o, u16]
      exact Nat.div_add_mod n 256

theorem u16enc_length (e : ByteOrder) (n : Nat) : (u16enc e n).length = 2 := by
  cases e <;> rfl

theorem u16_zero (e : ByteOrder) : u16 e 0 0 = 0 := by
  cases e <;> rfl

theorem unpackU16o_some_length {e : ByteOrder} {w : Bytes} {x : Nat}
    (h : unpackU16o e w = some x) : w.length = 2 := by
  match w with
  | [] => simp [unpackU16o] at h
  | [_] => simp [unpackU16o] at h
  | [_, _] => rfl
  | _ :: _ :: _ :: _ => simp [unpackU16o] at h

theorem fread_fst (n : Nat) (s : FState) :
    (fread n s).1 = (s.data.drop s.pos).take n := rfl

theorem fread_snd_data (n : Nat) (s : FState) : (fread n s).2.data = s.data := rfl

theorem fread_snd_pos (n : Nat) (s : FState) :
    (fread n s).2.pos = s.pos + ((s.data.drop s.pos).take n).length := rfl

theorem read_free_form_fuel_irrel (e : ByteOrder) :
    ∀ (f1 : Nat) (f2 : Nat) (s : FState) (d : Dict) (c : Nat),
      s.data.length - s.pos < f1 → s.data.length - s.pos < f2 →
      read_free_form_fuel e f1 s d c = read_free_form_fuel e f2 s d c := by
  intro f1
  induction f1 with
  | zero => intro f2 s d c h1 h2; omega
  | succ f1 ih =>
    intro f2 s d c h1 h2
    match f2, h2 with
    | f2 + 1, h2 =>
      simp only [read_free_form_fuel]
      cases hu : unpackU16o e (fread 2 s).1 with
      | none => rfl
      | some offset =>
        by_cases hz : offset = 0
        · simp [hz]
        · simp only [hz, if_neg, ite_false]
          have hlen2 : ((s.data.drop s.pos).take 2).length = 2 := by
            rw [fread_fst] at hu
            exact unpackU16o_some_length hu
          have hple : s.pos + 2 ≤ s.data.length := by
            have ht := List.length_take 2 (s.data.drop s.pos)
            have hd := List.length_drop s.pos s.data
            omega
          have hq : (fread (offset - 2) (fread 2 s).2).2.data = s.data := rfl
          have hqpos : s.pos + 2 ≤ (fread (offset - 2) (fread 2 s).2).2.pos := by
            rw [fread_snd_pos, fread_snd_pos, hlen2]
            omega
          have key : ∀ (d2 : Dict) (c2 : Nat),
              read_free_form_fuel e f1 (fread (offset - 2) (fread 2 s).2).2 d2 c2 =
              read_free_form_fuel e f2 (fread (offset - 2) (fread 2 s).2).2 d2 c2 := by
            intro d2 c2
            apply ih
            · rw [hq]; omega
            · rw [hq]; omega
          cases hs : splitWs (fread (offset - 2) (fread 2 s).2).1 with
          | nil => exact key d c
          | cons k t =>
            cases t with
            | nil => exact key d c
            | cons v t2 =>
              cases t2 with
              | nil => exact key (dictInsert d k v.dropLast) (c + 1)
              | cons w t3 => exact key d c

theorem read_free_form_fuel_term (e : ByteOrder) (f : Nat) (data rest : Bytes)
    (pos : Nat) (d : Dict) (c : Nat) (h : data.drop pos = 0 :: 0 :: rest) :
    read_free_form_fuel e (f + 1) ⟨data, pos⟩ d c =
      Except.ok (d, c, ⟨data, pos + 2⟩) := by
  simp only [read_free_form_fuel, fread_fst, fread_snd_pos, fread_snd_data]
  rw [h]
  simp [unpackU16o, u16_zero, fread, h]

theorem read_free_form_fuel_chunk (e : ByteOrder) (f : Nat) (data content rest : Bytes)
    (pos : Nat) (d : Dict) (c : Nat)
    (h : data.drop pos = encodeChunkRaw e content ++ rest) :
    read_free_form_fuel e (f + 1) ⟨data, pos⟩ d c =
      read_free_form_fuel e f ⟨data, pos + (2 + content.length)⟩ (chunkStep d content)
        (c + chunkCnt content) := by
  have hx : data.drop pos = u16enc e (content.length + 2) ++ (content ++ rest) := by
    rw [h, encodeChunkRaw, List.append_assoc]
  have htake2 : (data.drop pos).take 2 = u16enc e (content.length + 2) := by
    rw [hx]; exact List.take_left' (u16enc_length e _)
  have hdrop2 : data.drop (pos + 2) = content ++ rest := by
    rw [← List.drop_drop, hx]
    exact List.drop_left' (u16enc_length e _)
  have htakec : (data.drop (pos + 2)).take content.length = content := by
    rw [hdrop2]; exact List.take_left' rfl
  simp only [read_free_form_fuel, fread_fst, fread_snd_pos, fread_snd_data]
  rw [htake2, u16_enc_roundtrip]
  simp only [Nat.add_sub_cancel, htake2, u16enc_length]
  rw [if_neg (by omega)]
  rw [htakec]
  have h1 : (fread 2 (⟨data, pos⟩ : FState)).2 = (⟨data, pos + 2⟩ : FState) := by
    show (⟨data, pos + ((data.drop pos).take 2).length⟩ : FState) = (⟨data, pos + 2⟩ : FState)
    rw [htake2, u16enc_length e]
  have hst : (fread content.length (fread 2 (⟨data, pos⟩ : FState)).2).2 =
      (⟨data, pos + (2 + content.length)⟩ : FState) := by
    rw [h1]
    show (⟨data, (pos + 2) + ((data.drop (pos + 2)).take content.length).length⟩ : FState) =
      (⟨data, pos + (2 + content.length)⟩ : FState)
    rw [htakec, Nat.add_assoc]
  rw [hst]
  cases hs : splitWs content with
  | nil => simp [chunkStep, chunkCnt, hs]
  | cons k t =>
    cases t with
    | nil => simp [chunkStep, chunkCnt, hs]
    | cons v t2 =>
      cases t2 with
      | nil => simp [chunkStep, chunkCnt, hs]
      | cons w t3 => simp [chunkStep, chunkCnt, hs]

theorem encodeChunkRaw_length (e : ByteOrder) (content : Bytes) :
    (encodeChunkRaw e content).length = 2 + content.length := by
  simp [encodeChunkRaw, u16enc_length]

theorem encodeChunks_cons (e : ByteOrder) (c0 : Bytes) (cs : List Bytes) :
    encodeChunks e (c0 :: cs) = encodeChunkRaw e c0 ++ encodeChunks e cs := by
  simp [encodeChunks]

theorem read_free_form_term (e : ByteOrder) (data rest : Bytes) (pos : Nat)
    (d : Dict) (c : Nat) (h : data.drop pos = 0 :: 0 :: rest) :
    read_free_form e ⟨data, pos⟩ d c = Except.ok (d, c, ⟨data, pos + 2⟩) := by
  show read_free_form_fuel e (data.length - pos + 1) ⟨data, pos⟩ d c = _
  exact read_free_form_fuel_term e (data.length - pos) data rest pos d c h

theorem read_free_form_chunk_eq (e : ByteOrder) (data content rest : Bytes)
    (pos : Nat) (d : Dict) (c : Nat)
    (h : data.drop pos = encodeChunkRaw e content ++ rest) :
    read_free_form e ⟨data, pos⟩ d c =
      read_free_form e ⟨data, pos + (2 + content.length)⟩ (chunkStep d content)
        (c + chunkCnt content) := by
  have hlen : data.length - pos = 2 + content.length + rest.length := by
    have h2 := List.length_drop pos data
    have h3 : (data.drop pos).length = (encodeChunkRaw e content ++ rest).length := by
      rw [h]
    rw [List.length_append, encodeChunkRaw_length] at h3
    omega
  show read_free_form_fuel e (data.length - pos + 1) ⟨data, pos⟩ d c =
    read_free_form_fuel e (data.length - (pos + (2 + content.length)) + 1)
      ⟨data, pos + (2 + content.length)⟩ (chunkStep d content) (c + chunkCnt content)
  rw [read_free_form_fuel_chunk e (data.length - pos) data content rest pos d c h]
  apply read_free_form_fuel_irrel
  · show data.length - (pos + (2 + content.length)) < data.length - pos
    omega
  · show data.length - (pos + (2 + content.length)) <
      data.length - (pos + (2 + content.length)) + 1
    omega

theorem read_free_form_chunks (e : ByteOrder) (cs : List Bytes) :
    ∀ (data rest : Bytes) (pos : Nat) (d : Dict) (c : Nat),
      data.drop pos = encodeChunks e cs ++ rest →
      read_free_form e ⟨data, pos⟩ d c =
        read_free_form e ⟨data, pos + (encodeChunks e cs).length⟩
          (cs.foldl chunkStep d) (c + (cs.map chunkCnt).sum) := by
  induction cs with
  | nil =>
    intro data rest pos d c h
    simp [encodeChunks]
  | cons c0 cs ih =>
    intro data rest pos d c h
    have h0 : data.drop pos = encodeChunkRaw e c0 ++ (encodeChunks e cs ++ rest) := by
      rw [h, encodeChunks_cons, List.append_assoc]
    rw [read_free_form_chunk_eq e data c0 (encodeChunks e cs ++ rest) pos d c h0]
    have h1 : data.drop (pos + (2 + c0.length)) = encodeChunks e cs ++ rest := by
      rw [← List.drop_drop, h0]
      have := encodeChunkRaw_length e c0
      exact List.drop_left' this
    rw [ih data rest (pos + (2 + c0.length)) (chunkStep d c0) (c + chunkCnt c0) h1]
    have harith : pos + (2 + c0.length) + (encodeChunks e cs).length =
        pos + (encodeChunks e (c0 :: cs)).length := by
      rw [encodeChunks_cons, List.length_append, encodeChunkRaw_length]
      omega
    rw [harith]
    simp [Nat.add_assoc]

theorem splitWsAux_nonws (tok : Bytes) :
    ∀ (cur rest : Bytes), (∀ b ∈ tok, isSpace b = false) →
      splitWsAux cur (tok ++ rest) = splitWsAux (tok.reverse ++ cur) rest := by
  induction tok with
  | nil => intro cur rest _; simp
  | cons b bs ih =>
    intro cur rest h
    have hb : isSpace b = false := h b (by simp)
    simp only [List.cons_append, splitWsAux, hb, Bool.false_eq_true, if_false,
      List.append_eq]
    rw [ih (b :: cur) rest (fun x hx => h x (by simp [hx]))]
    simp [List.append_assoc]

theorem splitWsAux_token (w : Bytes) (hw : w ≠ [])
    (hw2 : ∀ b ∈ w, isSpace b = false) : splitWsAux [] w = [w] := by
  have h0 : splitWsAux [] (w ++ []) = splitWsAux (w.reverse ++ []) [] :=
    splitWsAux_nonws w [] [] hw2
  rw [List.append_nil, List.append_nil] at h0
  rw [h0, splitWsAux, if_neg (by simp [hw]), List.reverse_reverse]

theorem splitWs_key_value (k w : Bytes) (hk : k ≠ []) (hw : w ≠ [])
    (hk2 : ∀ b ∈ k, isSpace b = false) (hw2 : ∀ b ∈ w, isSpace b = false) :
    splitWs (k ++ 32 :: w) = [k, w] := by
  have h1 : splitWs (k ++ 32 :: w) = splitWsAux (k.reverse ++ []) (32 :: w) := by
    rw [splitWs]
    exact splitWsAux_nonws k [] (32 :: w) hk2
  rw [List.append_nil] at h1
  rw [h1, splitWsAux]
  have hsp : isSpace 32 = true := rfl
  rw [if_pos hsp]
  rw [if_neg (by simp [hk]), List.reverse_reverse]
  rw [splitWsAux_token w hw hw2]

theorem dictInsert_fresh (d : Dict) (k v : Bytes) (h : ∀ p ∈ d, p.1 ≠ k) :
    dictInsert d k v = d ++ [(k, v)] := by
  rw [dictInsert, if_neg]
  simp only [List.any_eq_true, beq_iff_eq, not_exists]
  intro p
  intro hc
  rcases hc with ⟨hp, hpk⟩
  exact h p hp hpk

theorem foldl_dictInsert_nodup :
    ∀ (ps : List (Bytes × Bytes)) (d : Dict),
      (ps.map Prod.fst).Nodup → (∀ p ∈ d, ∀ q ∈ ps, p.1 ≠ q.1) →
      ps.foldl (fun acc q => dictInsert acc q.1 q.2) d = d ++ ps := by
  intro ps
  induction ps with
  | nil => intro d _ _; simp
  | cons q qs ih =>
    intro d h1 h2
    simp only [List.foldl_cons]
    rw [dictInsert_fresh d q.1 q.2 (fun p hp => h2 p hp q (by simp))]
    have hnd : (qs.map Prod.fst).Nodup := by
      simp only [List.map_cons, List.nodup_cons] at h1
      exact h1.2
    have hhd : q.1 ∉ qs.map Prod.fst := by
      simp only [List.map_cons, List.nodup_cons] at h1
      exact h1.1
    rw [ih (d ++ [(q.1, q.2)]) hnd ?fresh]
    · simp
    case fresh =>
      intro p hp r hr
      rcases List.mem_append.mp hp with hpd | hpq
      · exact h2 p hpd r (by simp [hr])
      · have hpq2 : p = (q.1, q.2) := by simpa using hpq
        rw [hpq2]
        intro hc
        exact hhd (by rw [hc]; exact List.mem_map_of_mem Prod.fst hr)

theorem unpackU32o_short {e : ByteOrder} {w : Bytes} (h : w.length ≠ 4) :
    unpackU32o e w = none := by
  match w with
  | [] => rfl
  | [_] => rfl
  | [_, _] => rfl
  | [_, _, _] => rfl
  | [_, _, _, _] => exact absurd rfl h
  | _ :: _ :: _ :: _ :: _ :: _ => rfl

theorem getD_lt (l : Bytes) (n : Nat) (h : n < l.length) : l.getD n 0 = l[n] := by
  rw [List.getD_eq_getElem?_getD, List.getElem?_eq_getElem h, Option.getD_some]

theorem drop_take_four (l : Bytes) (p : Nat) (h : p + 4 ≤ l.length) :
    (l.drop p).take 4 =
      [l.getD p 0, l.getD (p + 1) 0, l.getD (p + 2) 0, l.getD (p + 3) 0] := by
  have h0 : p < l.length := by omega
  have h1 : p + 1 < l.length := by omega
  have h2 : p + 2 < l.length := by omega
  have h3 : p + 3 < l.length := by omega
  rw [List.drop_eq_getElem_cons h0, List.drop_eq_getElem_cons h1,
      List.drop_eq_getElem_cons h2, List.drop_eq_getElem_cons h3]
  rw [getD_lt l p h0, getD_lt l (p + 1) h1, getD_lt l (p + 2) h2, getD_lt l (p + 3) h3]
  rfl

/-- The value the pointer loop assigns to index j of the result: the j-th
consecutive 4-byte word of the sub-block, as an unsigned 32-bit integer. -/
def ptrWord (e : ByteOrder) (block : Bytes) (j : Nat) : Nat :=
  u32 e (block.getD (4 * j) 0) (block.getD (4 * j + 1) 0)
        (block.getD (4 * j + 2) 0) (block.getD (4 * j + 3) 0)

theorem readPointersLoop_ok (e : ByteOrder) (block : Bytes) :
    ∀ (n i : Nat), 4 * (i + n) ≤ block.length →
      readPointersLoop e block i n =
        Except.ok ((List.range n).map fun j => ptrWord e block (i + j)) := by
  intro n
  induction n with
  | zero => intro i _; simp [readPointersLoop]
  | succ n ih =>
    intro i h
    rw [readPointersLoop]
    rw [drop_take_four block (4 * i) (by omega)]
    simp only [unpackU32o]
    rw [ih (i + 1) (by omega)]
    rw [List.range_succ_eq_map, List.map_cons, List.map_map]
    simp only [Except.map]
    have hfun : ((fun j => ptrWord e block (i + j)) ∘ Nat.succ) =
        fun j => ptrWord e block (i + 1 + j) := by
      funext j
      simp only [Function.comp]
      have : i + Nat.succ j = i + 1 + j := by omega
      rw [this]
    rw [hfun]
    have hhead : ptrWord e block (i + 0) = u32 e (block.getD (4 * i) 0)
        (block.getD (4 * i + 1) 0) (block.getD (4 * i + 2) 0) (block.getD (4 * i + 3) 0) := by
      simp [ptrWord]
    rw [hhead]

theorem readPointersLoop_err (e : ByteOrder) (block : Bytes) :
    ∀ (n i : Nat), 0 < n → block.length < 4 * (i + n) →
      readPointersLoop e block i n = Except.error Seg2Error.TruncatedPointerTable := by
  intro n
  induction n with
  | zero => intro i h0 _; omega
  | succ n ih =>
    intro i _ h
    rw [readPointersLoop]
    by_cases hc : 4 * i + 4 ≤ block.length
    · rw [drop_take_four block (4 * i) (by omega)]
      simp only [unpackU32o]
      cases n with
      | zero => exfalso; omega
      | succ m =>
        rw [ih (i + 1) (by omega) (by omega)]
        rfl
    · have hlt : ((block.drop (4 * i)).take 4).length ≠ 4 := by
        have ht := List.length_take 4 (block.drop (4 * i))
        have hd := List.length_drop (4 * i) block
        omega
      rw [unpackU32o_short hlt]

theorem chunksOf_full (w : Nat) (hw : 0 < w) :
    ∀ (k : Nat) (bs : Bytes), bs.length = w * k →
      (chunksOf w bs).length = k ∧ ∀ c ∈ chunksOf w bs, c.length = w := by
  intro k
  induction k with
  | zero =>
    intro bs h
    have hb : bs = [] := List.eq_nil_of_length_eq_zero (by omega)
    subst hb
    simp [chunksOf, chunksOfFuel]
  | succ k ih =>
    intro bs h
    rw [Nat.mul_succ] at h
    cases bs with
    | nil => exfalso; simp at h; omega
    | cons b t =>
      simp only [List.length_cons] at h
      rw [chunksOf_cons]
      have hdrop : (t.drop (w - 1)).length = w * k := by
        rw [List.length_drop]; omega
      have hih := ih (t.drop (w - 1)) hdrop
      constructor
      · simp only [List.length_cons, hih.1]
      · intro c hc
        simp only [List.mem_cons] at hc
        rcases hc with hc | hc
        · rw [hc]
          simp only [List.length_cons, List.length_take]
          omega
        · exact hih.2 c hc

/-- A well-formed free-format header entry (key, value, terminator byte):
nonempty whitespace-free key and value, non-whitespace terminator. -/
abbrev EntryWF (p : Bytes × Bytes × Nat) : Prop :=
  p.1 ≠ [] ∧ p.2.1 ≠ [] ∧ (∀ b ∈ p.1, isSpace b = false) ∧
    (∀ b ∈ p.2.1, isSpace b = false) ∧ isSpace p.2.2 = false

/-- The content bytes of one entry: key, one space, value, terminator. -/
def contentOf (p : Bytes × Bytes × Nat) : Bytes :=
  p.1 ++ 32 :: (p.2.1 ++ [p.2.2])

/-- One entry as a length-prefixed chunk. -/
def encodeEntry (e : ByteOrder) (p : Bytes × Bytes × Nat) : Bytes :=
  encodeChunkRaw e (contentOf p)

/-- The mapping the spec expects: repeated Python-dict assignment of the
pairs in order (later duplicates overwrite in place). -/
def buildDict (ps : List (Bytes × Bytes × Nat)) : Dict :=
  ps.foldl (fun d p => dictInsert d p.1 p.2.1) []

theorem splitWs_contentOf (p : Bytes × Bytes × Nat) (h : EntryWF p) :
    splitWs (contentOf p) = [p.1, p.2.1 ++ [p.2.2]] := by
  obtain ⟨h1, h2, h3, h4, h5⟩ := h
  apply splitWs_key_value p.1 (p.2.1 ++ [p.2.2]) h1 (by simp) h3
  intro b hb
  rcases List.mem_append.mp hb with hb | hb
  · exact h4 b hb
  · have : b = p.2.2 := by simpa using hb
    rw [this]; exact h5

theorem chunkStep_entry (d : Dict) (p : Bytes × Bytes × Nat) (h : EntryWF p) :
    chunkStep d (contentOf p) = dictInsert d p.1 p.2.1 := by
  unfold chunkStep
  rw [splitWs_contentOf p h]
  show dictInsert d p.1 ((p.2.1 ++ [p.2.2]).dropLast) = dictInsert d p.1 p.2.1
  rw [List.dropLast_concat]

theorem chunkCnt_entry (p : Bytes × Bytes × Nat) (h : EntryWF p) :
    chunkCnt (contentOf p) = 1 := by
  unfold chunkCnt
  rw [splitWs_contentOf p h]

theorem chunkStep_malformed (d : Dict) (m : Bytes)
    (h : (splitWs m).length ≠ 2) : chunkStep d m = d ∧ chunkCnt m = 0 := by
  unfold chunkStep chunkCnt
  cases hs : splitWs m with
  | nil => exact ⟨rfl, rfl⟩
  | cons a t =>
    cases t with
    | nil => exact ⟨rfl, rfl⟩
    | cons b t2 =>
      cases t2 with
      | nil => exfalso; rw [hs] at h; exact h rfl
      | cons c3 t3 => exact ⟨rfl, rfl⟩

theorem drop_of_drop_append (data pre tail : Bytes) (pos : Nat)
    (h : data.drop pos = pre ++ tail) :
    data.drop (pos + pre.length) = tail := by
  rw [← List.drop_drop, h]
  exact List.drop_left pre tail

theorem read_free_form_entries (e : ByteOrder) (ps : List (Bytes × Bytes × Nat))
    (data tail : Bytes) (pos : Nat) (d : Dict) (c : Nat)
    (hwf : ∀ p ∈ ps, EntryWF p)
    (h : data.drop pos = (ps.map (encodeEntry e)).flatten ++ tail) :
    read_free_form e ⟨data, pos⟩ d c =
      read_free_form e ⟨data, pos + ((ps.map (encodeEntry e)).flatten).length⟩
        (ps.foldl (fun acc p => dictInsert acc p.1 p.2.1) d) (c + ps.length) := by
  have hflat : (ps.map (encodeEntry e)).flatten = encodeChunks e (ps.map contentOf) := by
    rw [encodeChunks, List.map_map]
    rfl
  rw [hflat] at h ⊢
  rw [read_free_form_chunks e (ps.map contentOf) data tail pos d c h]
  have hfold : (ps.map contentOf).foldl chunkStep d =
      ps.foldl (fun acc p => dictInsert acc p.1 p.2.1) d := by
    rw [List.foldl_map]
    apply List.foldl_ext
    intro acc p hp
    exact chunkStep_entry acc p (hwf p hp)
  have hsum : ((ps.map contentOf).map chunkCnt).sum = ps.length := by
    rw [List.map_map]
    have hmc : ps.map (chunkCnt ∘ contentOf) = ps.map (fun _ => 1) := by
      apply List.map_congr_left
      intro p hp
      exact chunkCnt_entry p (hwf p hp)
    rw [hmc]
    simp
  rw [hfold, hsum]

/-- C6: for every K and every byte sequence built from K well-formed
length-prefixed key-value chunks followed by a zero-length terminator, the
free-format block parser returns the mapping obtained by inserting exactly
those K pairs in their original order (later duplicate keys overwriting in
place, first-seen order preserved), together with K successful stores; when
the keys are distinct the mapping is literally the K pairs in order. -/
theorem c6_free_format_recovers_pairs (e : ByteOrder)
    (ps : List (Bytes × Bytes × Nat)) (rest : Bytes)
    (hwf : ∀ p ∈ ps, EntryWF p) :
    read_free_form e ⟨(ps.map (encodeEntry e)).flatten ++ 0 :: 0 :: rest, 0⟩ [] 0 =
      Except.ok (buildDict ps, ps.length,
        ⟨(ps.map (encodeEntry e)).flatten ++ 0 :: 0 :: rest,
         ((ps.map (encodeEntry e)).flatten).length + 2⟩) ∧
    ((ps.map (fun p => p.1)).Nodup → buildDict ps = ps.map (fun p => (p.1, p.2.1))) := by
  constructor
  · have h0 : ((ps.map (encodeEntry e)).flatten ++ 0 :: 0 :: rest).drop 0 =
        (ps.map (encodeEntry e)).flatten ++ (0 :: 0 :: rest) := by
      rw [List.drop_zero]
    rw [read_free_form_entries e ps _ (0 :: 0 :: rest) 0 [] 0 hwf h0]
    have h1 : ((ps.map (encodeEntry e)).flatten ++ 0 :: 0 :: rest).drop
        (0 + ((ps.map (encodeEntry e)).flatten).length) = 0 :: 0 :: rest :=
      drop_of_drop_append _ _ _ 0 h0
    rw [read_free_form_term e _ rest _ _ _ h1]
    rw [buildDict]
    simp
  · intro hnd
    rw [buildDict]
    rw [show ps.foldl (fun d p => dictInsert d p.1 p.2.1) ([] : Dict) =
        (ps.map (fun p => (p.1, p.2.1))).foldl (fun acc q => dictInsert acc q.1 q.2) []
      from (List.foldl_map (fun p : Bytes × Bytes × Nat => (p.1, p.2.1))
        (fun acc q => dictInsert acc q.1 q.2) ps ([] : Dict)).symm]
    rw [foldl_dictInsert_nodup (ps.map fun p => (p.1, p.2.1)) [] ?hnodup ?hfresh]
    · simp
    case hnodup =>
      rw [List.map_map]
      exact hnd
    case hfresh =>
      intro p hp
      simp at hp

/-- C7: a free-format block consisting of well-formed entries around one
chunk whose content does not split into exactly two whitespace-separated
tokens parses without error to the mapping of all the well-formed entries;
the malformed chunk is skipped and contributes no store. -/
theorem c7_malformed_chunk_skipped (e : ByteOrder)
    (ps1 ps2 : List (Bytes × Bytes × Nat)) (bad rest : Bytes)
    (h1 : ∀ p ∈ ps1, EntryWF p) (h2 : ∀ p ∈ ps2, EntryWF p)
    (hbad : (splitWs bad).length ≠ 2) :
    read_free_form e ⟨(ps1.map (encodeEntry e)).flatten ++ (encodeChunkRaw e bad ++
        ((ps2.map (encodeEntry e)).flatten ++ 0 :: 0 :: rest)), 0⟩ [] 0 =
      Except.ok (buildDict (ps1 ++ ps2), (ps1 ++ ps2).length,
        ⟨(ps1.map (encodeEntry e)).flatten ++ (encodeChunkRaw e bad ++
          ((ps2.map (encodeEntry e)).flatten ++ 0 :: 0 :: rest)),
         ((ps1.map (encodeEntry e)).flatten).length + (2 + bad.length) +
           ((ps2.map (encodeEntry e)).flatten).length + 2⟩) := by
  have hA : ((ps1.map (encodeEntry e)).flatten ++ (encodeChunkRaw e bad ++
      ((ps2.map (encodeEntry e)).flatten ++ 0 :: 0 :: rest))).drop 0 =
        (ps1.map (encodeEntry e)).flatten ++ (encodeChunkRaw e bad ++
          ((ps2.map (encodeEntry e)).flatten ++ 0 :: 0 :: rest)) := by
    rw [List.drop_zero]
  rw [read_free_form_entries e ps1 _ _ 0 [] 0 h1 hA]
  have hB := drop_of_drop_append _ _ _ 0 hA
  rw [read_free_form_chunk_eq e _ bad _ _ _ _ hB]
  rw [(chunkStep_malformed _ bad hbad).1, (chunkStep_malformed [] bad hbad).2]
  have hB2 : ((ps1.map (encodeEntry e)).flatten ++ (encodeChunkRaw e bad ++
      ((ps2.map (encodeEntry e)).flatten ++ 0 :: 0 :: rest))).drop
        (0 + ((ps1.map (encodeEntry e)).flatten).length + (2 + bad.length)) =
      (ps2.map (encodeEntry e)).flatten ++ 0 :: 0 :: rest := by
    have hC := drop_of_drop_append _ _ _ _ hB
    rw [encodeChunkRaw_length] at hC
    exact hC
  rw [read_free_form_entries e ps2 _ _ _ _ _ h2 hB2]
  have hD := drop_of_drop_append _ _ _ _ hB2
  rw [read_free_form_term e _ rest _ _ _ hD]
  rw [buildDict, List.foldl_append]
  simp only [Except.ok.injEq, Prod.mk.injEq, FState.mk.injEq, List.length_append]
  refine ⟨trivial, by omega, trivial, by omega⟩

theorem dictInsert_nil (k v : Bytes) : dictInsert [] k v = [(k, v)] := rfl

/-- C9 (amended): the free-format parser always removes exactly one
trailing byte from the value token, never consulting the declared
string-terminator size.  With a single non-whitespace terminator byte the
bare value is stored; with two non-whitespace terminator bytes the first
terminator byte remains embedded in the stored value.  (When the
terminator bytes are ASCII whitespace, bytes.split has already removed
them and the unconditional strip removes a data byte instead — see the
counterexample theorem.) -/
theorem c9_value_strips_one_byte (e : ByteOrder) (k v : Bytes) (t1 t2 : Nat)
    (rest1 rest2 : Bytes) (hk : k ≠ []) (hv : v ≠ [])
    (hk2 : ∀ b ∈ k, isSpace b = false) (hv2 : ∀ b ∈ v, isSpace b = false)
    (ht1 : isSpace t1 = false) (ht2 : isSpace t2 = false) :
    read_free_form e ⟨encodeChunkRaw e (k ++ 32 :: (v ++ [t1])) ++ 0 :: 0 :: rest1, 0⟩ [] 0 =
      Except.ok ([(k, v)], 1,
        ⟨encodeChunkRaw e (k ++ 32 :: (v ++ [t1])) ++ 0 :: 0 :: rest1,
         2 + (k ++ 32 :: (v ++ [t1])).length + 2⟩) ∧
    read_free_form e ⟨encodeChunkRaw e (k ++ 32 :: (v ++ [t1, t2])) ++ 0 :: 0 :: rest2, 0⟩ [] 0 =
      Except.ok ([(k, v ++ [t1])], 1,
        ⟨encodeChunkRaw e (k ++ 32 :: (v ++ [t1, t2])) ++ 0 :: 0 :: rest2,
         2 + (k ++ 32 :: (v ++ [t1, t2])).length + 2⟩) := by
  constructor
  · have hA : (encodeChunkRaw e (k ++ 32 :: (v ++ [t1])) ++ 0 :: 0 :: rest1).drop 0 =
        encodeChunkRaw e (k ++ 32 :: (v ++ [t1])) ++ 0 :: 0 :: rest1 := List.drop_zero _
    rw [read_free_form_chunk_eq e _ _ _ 0 [] 0 hA]
    have hstep : chunkStep [] (k ++ 32 :: (v ++ [t1])) = [(k, v)] := by
      have := chunkStep_entry [] (k, v, t1) ⟨hk, hv, hk2, hv2, ht1⟩
      rw [contentOf] at this
      rw [this, dictInsert_nil]
    have hcnt : chunkCnt (k ++ 32 :: (v ++ [t1])) = 1 := by
      have := chunkCnt_entry (k, v, t1) ⟨hk, hv, hk2, hv2, ht1⟩
      rw [contentOf] at this
      exact this
    rw [hstep, hcnt]
    have hB := drop_of_drop_append _ _ _ 0 hA
    rw [encodeChunkRaw_length] at hB
    rw [read_free_form_term e _ rest1 _ _ _ hB]
    simp
  · have hw2 : ∀ b ∈ v ++ [t1, t2], isSpace b = false := by
      intro b hb
      rcases List.mem_append.mp hb with hb | hb
      · exact hv2 b hb
      · simp only [List.mem_cons, List.mem_singleton] at hb
        rcases hb with hb | hb
        · rw [hb]; exact ht1
        · rcases hb with hb | hb
          · rw [hb]; exact ht2
          · simp at hb
    have hsplit : splitWs (k ++ 32 :: (v ++ [t1, t2])) = [k, v ++ [t1, t2]] :=
      splitWs_key_value k (v ++ [t1, t2]) hk (by simp) hk2 hw2
    have hA : (encodeChunkRaw e (k ++ 32 :: (v ++ [t1, t2])) ++ 0 :: 0 :: rest2).drop 0 =
        encodeChunkRaw e (k ++ 32 :: (v ++ [t1, t2])) ++ 0 :: 0 :: rest2 := List.drop_zero _
    rw [read_free_form_chunk_eq e _ _ _ 0 [] 0 hA]
    have hdl : (v ++ [t1, t2]).dropLast = v ++ [t1] := by
      have : v ++ [t1, t2] = (v ++ [t1]) ++ [t2] := by simp
      rw [this, List.dropLast_concat]
    have hstep : chunkStep [] (k ++ 32 :: (v ++ [t1, t2])) = [(k, v ++ [t1])] := by
      unfold chunkStep
      rw [hsplit]
      show dictInsert [] k ((v ++ [t1, t2]).dropLast) = [(k, v ++ [t1])]
      rw [hdl, dictInsert_nil]
    have hcnt : chunkCnt (k ++ 32 :: (v ++ [t1, t2])) = 1 := by
      unfold chunkCnt
      rw [hsplit]
    rw [hstep, hcnt]
    have hB := drop_of_drop_append _ _ _ 0 hA
    rw [encodeChunkRaw_length] at hB
    rw [read_free_form_term e _ rest2 _ _ _ hB]
    simp

theorem except_bind_ok {ε α β : Type} (a : α) (f : α → Except ε β) :
    (Except.ok a : Except ε α) >>= f = f a := rfl

theorem except_bind_error {ε α β : Type} (er : ε) (f : α → Except ε β) :
    (Except.error er : Except ε α) >>= f = Except.error er := rfl

theorem except_bind_ok2 {ε α β : Type} (a : α) (f : α → Except ε β) :
    Except.bind (Except.ok a) f = f a := rfl

theorem except_bind_error2 {ε α β : Type} (er : ε) (f : α → Except ε β) :
    Except.bind (Except.error er : Except ε α) f = Except.error er := rfl

theorem parse_file_descriptor_bad (b : Nat) (bs : Bytes)
    (hb1 : b ≠ 0x55) (hb2 : b ≠ 0x3a) :
    parse_file_descriptor (b :: bs) = Except.error Seg2Error.UnrecognizedFormat := by
  simp [parse_file_descriptor, req, unpackU8o, hb1, hb2, except_bind_ok, except_bind_error]

theorem parse_file_descriptor_endian (b : Nat) (eo : ByteOrder) (bs : Bytes)
    (heo : (if b = 0x55 then some ByteOrder.little
            else if b = 0x3a then some ByteOrder.big else none) = some eo) :
    ∀ fd : FileDescriptor, parse_file_descriptor (b :: bs) = Except.ok fd →
      fd.endian = eo := by
  intro fd h
  simp only [parse_file_descriptor, req, unpackU8o, except_bind_ok, except_bind_error,
    List.take_succ_cons, List.take_zero, heo] at h
  cases hu : unpackU16o eo ((b :: bs).drop 2 |>.take 2) with
  | none => rw [hu] at h; exact Except.noConfusion h
  | some rv =>
    rw [hu] at h
    cases hm : unpackU16o eo ((b :: bs).drop 4 |>.take 2) with
    | none => rw [hm] at h; exact Except.noConfusion h
    | some mv =>
      rw [hm] at h
      cases hn : unpackU16o eo ((b :: bs).drop 6 |>.take 2) with
      | none => rw [hn] at h; exact Except.noConfusion h
      | some nv =>
        rw [hn] at h
        cases ht : unpackBccBcco ((b :: bs).drop 8 |>.take 6) with
        | none => rw [ht] at h; exact Except.noConfusion h
        | some tv =>
          rw [ht] at h
          have h2 : Except.ok (⟨eo, rv, mv, nv,
              if tv.1 = 2 then [tv.2.1, tv.2.2.1] else [tv.2.1],
              if tv.2.2.2.1 = 2 then [tv.2.2.2.2.1, tv.2.2.2.2.2]
              else [tv.2.2.2.2.1]⟩ : FileDescriptor) = Except.ok fd := h
          cases h2
          rfl

/-- C3: a first byte of 0x55 makes every successful descriptor parse use
little-endian decoding and 0x3a big-endian; any other first byte makes both
entry points fail with UnrecognizedFormat before any multi-byte field has
been decoded (in the source the warning print leaves `endian` unbound and
the very next unpack raises NameError). -/
theorem c3_magic_byte_dispatch (b : Nat) (rest : Bytes)
    (hb1 : b ≠ 0x55) (hb2 : b ≠ 0x3a) :
    (∀ (bs : Bytes) (fd : FileDescriptor),
        parse_file_descriptor (0x55 :: bs) = Except.ok fd →
          fd.endian = ByteOrder.little) ∧
    (∀ (bs : Bytes) (fd : FileDescriptor),
        parse_file_descriptor (0x3a :: bs) = Except.ok fd →
          fd.endian = ByteOrder.big) ∧
    read_seg (b :: rest) = Except.error Seg2Error.UnrecognizedFormat ∧
    read_seg2_header (b :: rest) = Except.error Seg2Error.UnrecognizedFormat := by
  have h32 : (b :: rest).take 32 = b :: rest.take 31 := rfl
  refine ⟨fun bs => parse_file_descriptor_endian 0x55 ByteOrder.little bs (by decide),
    fun bs => parse_file_descriptor_endian 0x3a ByteOrder.big bs (by decide), ?_, ?_⟩
  · simp only [read_seg, fread, List.drop_zero, h32,
      parse_file_descriptor_bad b (rest.take 31) hb1 hb2, except_bind_error]
  · simp only [read_seg2_header, fread, List.drop_zero, h32,
      parse_file_descriptor_bad b (rest.take 31) hb1 hb2, except_bind_error]

/-- C3 witness: first byte 0 is neither magic value, and both entry points
reject the one-byte file [0]. -/
theorem c3_magic_byte_dispatch_witness :
    (∀ (bs : Bytes) (fd : FileDescriptor),
        parse_file_descriptor (0x55 :: bs) = Except.ok fd →
          fd.endian = ByteOrder.little) ∧
    (∀ (bs : Bytes) (fd : FileDescriptor),
        parse_file_descriptor (0x3a :: bs) = Except.ok fd →
          fd.endian = ByteOrder.big) ∧
    read_seg [0] = Except.error Seg2Error.UnrecognizedFormat ∧
    read_seg2_header [0] = Except.error Seg2Error.UnrecognizedFormat :=
  c3_magic_byte_dispatch 0 [] (by decide) (by decide)

theorem read_trace_bad_magic (e : ByteOrder) (dty : Option Fmt) (p : Nat) (s0 : FState)
    (ID : Nat) (hID : unpackU16o e ((s0.data.drop p).take 2) = some ID)
    (hne : ID ≠ 0x4422) :
    read_trace e dty p s0 = Except.error Seg2Error.InvalidTraceMagic := by
  have htt : ((s0.data.drop p).take 32).take 2 = (s0.data.drop p).take 2 := by
    rw [List.take_take]
    norm_num
  simp [read_trace, fseekAbs, fread_fst, req, htt, hID, hne,
    except_bind_ok, except_bind_error]

/-- C4: whenever the 2-byte block ID found at a trace pointer differs from
0x4422, the whole trace loop aborts immediately with InvalidTraceMagic,
whatever the remaining bytes of that trace or the remaining pointers are —
no partial-trace recovery happens (in the source this is the AssertionError
of `assert ID == 0x4422`). -/
theorem c4_invalid_trace_magic (e : ByteOrder) (s : FState) (dty : Option Fmt)
    (ths : List Dict) (trs : List (List Bytes)) (p : Nat) (ps : List Nat) (ID : Nat)
    (hID : unpackU16o e ((s.data.drop p).take 2) = some ID) (hne : ID ≠ 0x4422) :
    read_traces e s dty ths trs (p :: ps) = Except.error Seg2Error.InvalidTraceMagic := by
  rw [read_traces, read_trace_bad_magic e dty p s ID hID hne]

/-- C4 witness: a two-byte file whose trace descriptor starts with ID 0. -/
theorem c4_invalid_trace_magic_witness :
    read_traces ByteOrder.little ⟨[0, 0], 0⟩ none [] [] [0] =
      Except.error Seg2Error.InvalidTraceMagic :=
  c4_invalid_trace_magic ByteOrder.little ⟨[0, 0], 0⟩ none [] [] 0 [] 0
    (by decide) (by decide)

/-- C8: f.read(M) obtains exactly M bytes whenever M bytes remain, and the
pointer loop decodes the first N 4-byte words of the sub-block as N
consecutive unsigned 32-bit offsets in the detected byte order; whenever
the sub-block holds fewer than 4N bytes the loop fails with
TruncatedPointerTable (struct.error on the short word in the source). -/
theorem c8_pointer_table (e : ByteOrder) (block : Bytes) (n : Nat)
    (s : FState) (M : Nat) :
    (M + s.pos ≤ s.data.length → ((fread M s).1).length = M) ∧
    (4 * n ≤ block.length → readPointers e block n =
      Except.ok ((List.range n).map fun j => ptrWord e block j)) ∧
    (block.length < 4 * n → readPointers e block n =
      Except.error Seg2Error.TruncatedPointerTable) := by
  refine ⟨?_, ?_, ?_⟩
  · intro h
    rw [fread_fst, List.length_take, List.length_drop]
    omega
  · intro h
    rw [readPointers, readPointersLoop_ok e block n 0 (by omega)]
    congr 1
    apply List.map_congr_left
    intro j _
    rw [Nat.zero_add]
  · intro h
    have hn : 0 < n := by omega
    exact readPointersLoop_err e block n 0 hn (by omega)

/-- C8 witness: one byte remaining is read in full; a 4-byte block holds
one pointer; an empty block cannot hold one pointer. -/
theorem c8_pointer_table_witness :
    ((fread 1 ⟨[5], 0⟩).1).length = 1 ∧
    readPointers ByteOrder.little [1, 0, 0, 0] 1 = Except.ok [1] ∧
    readPointers ByteOrder.little [] 1 = Except.error Seg2Error.TruncatedPointerTable := by
  refine ⟨(c8_pointer_table ByteOrder.little [1, 0, 0, 0] 1 ⟨[5], 0⟩ 1).1 (by decide),
    ((c8_pointer_table ByteOrder.little [1, 0, 0, 0] 1 ⟨[5], 0⟩ 1).2.1
      (by decide)).trans (by decide),
    (c8_pointer_table ByteOrder.little [] 1 ⟨[5], 0⟩ 1).2.2 (by decide)⟩

/-- C5 (amended): the sample widths of the format-code table are 2, 4, 4
and 8 bytes (code 3 absent); the payload read begins exactly one byte past
the header terminator and requests NS times width bytes; the bytes actually
obtained are decoded as consecutive width-byte groups — when their number
is a multiple of the width the decode SUCCEEDS with length/width samples
(fewer than NS if the stream ran short), and only a non-multiple length
fails (numpy ValueError, not a dedicated truncation error). -/
theorem c5_payload_amended (nb NS : Nat) (s : FState) (hnb : 0 < nb) :
    ((DATA_FORMAT_CODES 1).map fmtBytes = some 2 ∧
     (DATA_FORMAT_CODES 2).map fmtBytes = some 4 ∧
     (DATA_FORMAT_CODES 4).map fmtBytes = some 4 ∧
     (DATA_FORMAT_CODES 5).map fmtBytes = some 8 ∧
     DATA_FORMAT_CODES 3 = none) ∧
    (((s.data.drop (s.pos + 1)).take (NS * nb)).length % nb = 0 →
      read_trace_data nb NS s =
        Except.ok (chunksOf nb ((s.data.drop (s.pos + 1)).take (NS * nb)),
          ⟨s.data, s.pos + 1 + ((s.data.drop (s.pos + 1)).take (NS * nb)).length⟩) ∧
      (chunksOf nb ((s.data.drop (s.pos + 1)).take (NS * nb))).length =
        ((s.data.drop (s.pos + 1)).take (NS * nb)).length / nb ∧
      (∀ c ∈ chunksOf nb ((s.data.drop (s.pos + 1)).take (NS * nb)), c.length = nb)) ∧
    (((s.data.drop (s.pos + 1)).take (NS * nb)).length % nb ≠ 0 →
      read_trace_data nb NS s = Except.error Seg2Error.SampleSizeMismatch) := by
  have hr1 : (fread (NS * nb) (fseekRel1 s)).1 =
      (s.data.drop (s.pos + 1)).take (NS * nb) := rfl
  have hr2 : (fread (NS * nb) (fseekRel1 s)).2 =
      (⟨s.data, s.pos + 1 + ((s.data.drop (s.pos + 1)).take (NS * nb)).length⟩ : FState) := rfl
  refine ⟨⟨rfl, rfl, rfl, rfl, rfl⟩, ?_, ?_⟩
  · intro h
    have hlen : ((s.data.drop (s.pos + 1)).take (NS * nb)).length =
        nb * (((s.data.drop (s.pos + 1)).take (NS * nb)).length / nb) := by
      have hdm := Nat.div_add_mod ((s.data.drop (s.pos + 1)).take (NS * nb)).length nb
      omega
    have hch := chunksOf_full nb hnb
      (((s.data.drop (s.pos + 1)).take (NS * nb)).length / nb)
      ((s.data.drop (s.pos + 1)).take (NS * nb)) hlen
    refine ⟨?_, hch.1, hch.2⟩
    simp only [read_trace_data, npFromstring, hr1, hr2]
    rw [if_pos h]
  · intro h
    simp only [read_trace_data, npFromstring, hr1, hr2]
    rw [if_neg h]

/-- C5 (amended) witness: a full 4-byte float payload decodes to one
4-byte sample group; a 3-byte leftover with 2-byte samples fails. -/
theorem c5_payload_amended_witness :
    read_trace_data 4 1 ⟨[9, 1, 2, 3, 4], 0⟩ =
      Except.ok ([[1, 2, 3, 4]], ⟨[9, 1, 2, 3, 4], 5⟩) ∧
    read_trace_data 2 2 ⟨[9, 1, 2, 3], 0⟩ =
      Except.error Seg2Error.SampleSizeMismatch := by
  constructor
  · exact (((c5_payload_amended 4 1 ⟨[9, 1, 2, 3, 4], 0⟩ (by decide)).2.1
      (by decide)).1).trans (by decide)
  · exact (c5_payload_amended 2 2 ⟨[9, 1, 2, 3], 0⟩ (by decide)).2.2 (by decide)

/-- C6 witness: one entry, key A and value B, null terminator. -/
theorem c6_free_format_recovers_pairs_witness :
    read_free_form ByteOrder.little ⟨[6, 0, 65, 32, 66, 0, 0, 0], 0⟩ [] 0 =
      Except.ok ([([65], [66])], 1, ⟨[6, 0, 65, 32, 66, 0, 0, 0], 8⟩) ∧
    buildDict [([65], [66], 0)] = [([65], [66])] := by
  have h := c6_free_format_recovers_pairs ByteOrder.little [([65], [66], 0)] [] (by decide)
  exact ⟨h.1.trans (by decide), (h.2 (by decide)).trans (by decide)⟩

/-- C7 witness: the single-token chunk [88] is skipped and the good entry
around it is kept. -/
theorem c7_malformed_chunk_skipped_witness :
    read_free_form ByteOrder.little ⟨[6, 0, 65, 32, 66, 0, 3, 0, 88, 0, 0], 0⟩ [] 0 =
      Except.ok ([([65], [66])], 1, ⟨[6, 0, 65, 32, 66, 0, 3, 0, 88, 0, 0], 11⟩) := by
  have h := c7_malformed_chunk_skipped ByteOrder.little [([65], [66], 0)] [] [88] []
    (by decide) (by decide) (by decide)
  exact h.trans (by decide)

/-- C9 (amended) witness: key K, value A, non-whitespace terminators 1 and
2; the 1-byte terminator is fully stripped, the 2-byte terminator leaves
its first byte embedded. -/
theorem c9_value_strips_one_byte_witness :
    read_free_form ByteOrder.little ⟨[6, 0, 75, 32, 65, 1, 0, 0], 0⟩ [] 0 =
      Except.ok ([([75], [65])], 1, ⟨[6, 0, 75, 32, 65, 1, 0, 0], 8⟩) ∧
    read_free_form ByteOrder.little ⟨[7, 0, 75, 32, 65, 1, 2, 0, 0], 0⟩ [] 0 =
      Except.ok ([([75], [65, 1])], 1, ⟨[7, 0, 75, 32, 65, 1, 2, 0, 0], 9⟩) := by
  have h := c9_value_strips_one_byte ByteOrder.little [75] [65] 1 2 [] []
    (by decide) (by decide) (by decide) (by decide) (by decide) (by decide)
  exact ⟨h.1.trans (by decide), h.2.trans (by decide)⟩

/-- C10: any file whose first byte is a valid magic value and whose trace
count field (bytes 6 and 7) is zero makes read_seg fail: with no trace
pointers the trace list stays empty and np.stack of an empty list raises,
so read_seg never returns an empty 0-by-NS result. -/
theorem c10_zero_traces_never_returns (b1 b2 b3 b4 b5 t1 t2 t3 t4 t5 t6 : Nat)
    (rest : Bytes) :
    read_seg (0x55 :: b1 :: b2 :: b3 :: b4 :: b5 :: 0 :: 0 ::
        t1 :: t2 :: t3 :: t4 :: t5 :: t6 :: rest) =
      Except.error Seg2Error.StackEmpty ∧
    read_seg (0x3a :: b1 :: b2 :: b3 :: b4 :: b5 :: 0 :: 0 ::
        t1 :: t2 :: t3 :: t4 :: t5 :: t6 :: rest) =
      Except.error Seg2Error.StackEmpty :=
  ⟨rfl, rfl⟩

/-- A valid little-endian SEG-2 file declaring N = 1 trace (pointer 36,
NS = 1, format code 4) whose trace header carries two well-formed entries
("A B" and "C D", null-terminated), followed by the pad byte and a 4-byte
float payload. -/
def c1file : Bytes :=
  [0x55, 0, 1, 0, 4, 0, 1, 0, 1, 0, 0, 1, 0, 0] ++ List.replicate 18 0 ++
  [36, 0, 0, 0] ++
  [0x22, 0x44, 0, 0, 0, 0, 0, 0, 1, 0, 0, 0, 4] ++ List.replicate 19 0 ++
  [6, 0, 65, 32, 66, 0] ++ [6, 0, 67, 32, 68, 0] ++ [0, 0] ++ [0] ++ [9, 9, 9, 9]

/-- C1 (code bug, evaluated at the failing input): for the single-trace
file `c1file` (N = 1) read_seg returns TWO trace-header mappings — the
same dict appended once per successful header entry, because the source's
`trace_headers.append(trace_header)` sits inside the per-entry while loop —
while the stacked array correctly has first dimension 1.  The claim's
"exactly N mappings, one per trace" fails. -/
theorem c1_headers_appended_per_entry :
    read_seg c1file =
      Except.ok (List.replicate 2 [([65], [66]), ([67], [68])], (1, 1),
        [[[9, 9, 9, 9]]]) ∧
    (List.replicate 2 [([65], [66]), ([67], [68])] : List Dict).length ≠ 1 := by
  exact ⟨rfl, by decide⟩

/-- A little-endian SEG-2 file with N = 2 traces (pointers 40 and 79):
trace 1 has format code 4 (float32) and one 4-byte sample; trace 2 declares
the unsupported format code 3 and still carries 4 payload bytes. -/
def c2file : Bytes :=
  [0x55, 0, 1, 0, 8, 0, 2, 0, 1, 0, 0, 1, 0, 0] ++ List.replicate 18 0 ++
  [40, 0, 0, 0, 79, 0, 0, 0] ++
  [0x22, 0x44, 0, 0, 0, 0, 0, 0, 1, 0, 0, 0, 4] ++ List.replicate 19 0 ++
  [0, 0] ++ [0] ++ [1, 2, 3, 4] ++
  [0x22, 0x44, 0, 0, 0, 0, 0, 0, 1, 0, 0, 0, 3] ++ List.replicate 19 0 ++
  [0, 0] ++ [0] ++ [5, 6, 7, 8]

/-- C2 (code bug, evaluated at the failing input): decoding `c2file`
returns normally — the trace with the unsupported format code 3 is NOT
rejected; the source catches the KeyError, prints a message, and keeps the
`dtype` of the previous trace (float32, 4 bytes), so the second trace
contributes the samples [5, 6, 7, 8].  The claim's "the whole decode
aborts with UnsupportedDataFormat and no such trace contributes samples"
fails whenever the unsupported trace is not the first one. -/
theorem c2_stale_dtype_reused :
    read_seg c2file =
      Except.ok ([], (2, 1), [[[1, 2, 3, 4]], [[5, 6, 7, 8]]]) ∧
    DATA_FORMAT_CODES 3 = none := by
  exact ⟨rfl, rfl⟩

/-- A little-endian SEG-2 file with one trace declaring NS = 2 samples of
format code 4 (4 bytes each, so 8 payload bytes are required) but ending
after only 4 payload bytes. -/
def c5file : Bytes :=
  [0x55, 0, 1, 0, 4, 0, 1, 0, 1, 0, 0, 1, 0, 0] ++ List.replicate 18 0 ++
  [36, 0, 0, 0] ++
  [0x22, 0x44, 0, 0, 0, 0, 0, 0, 2, 0, 0, 0, 4] ++ List.replicate 19 0 ++
  [0, 0] ++ [0] ++ [7, 7, 7, 7]

/-- C5 counterexample: `c5file` declares NS = 2 four-byte samples but holds
only 4 payload bytes (shorter than NS times width), yet read_seg returns
normally with a single-sample trace — no TruncatedStream-style failure
occurs, refuting the claim's "a payload shorter than NS×width fails". -/
theorem c5_short_payload_counterexample :
    read_seg c5file = Except.ok ([], (1, 1), [[[7, 7, 7, 7]]]) := rfl

/-- A SEG-2 file whose descriptor declares a TWO-byte string terminator
(carriage return, line feed), M = 0, N = 0, and whose file header holds the
single entry "KEY AB" terminated by CR LF. -/
def c9file : Bytes :=
  [0x55, 0, 1, 0, 0, 0, 0, 0, 2, 13, 10, 1, 0, 0] ++ List.replicate 18 0 ++
  [10, 0, 75, 69, 89, 32, 65, 66, 13, 10] ++ [0, 0]

/-- C9 counterexample: with the declared 2-byte CR LF terminator, the
stored value for key "KEY" is [65] ("A"), not [65, 66, 13] ("AB" plus an
embedded terminator byte): bytes.split already consumed the whitespace
terminator bytes and the unconditional one-byte strip then removed the
data byte "B".  No terminator character remains embedded, refuting the
claim's conclusion for whitespace terminators. -/
theorem c9_crlf_terminator_counterexample :
    read_seg2_header c9file = Except.ok [([75, 69, 89], [65])] ∧
    ([65] : Bytes) ≠ [65, 66, 13] := by
  exact ⟨by decide, by decide⟩
